import Mathlib

/-!
# Verification of the camera/view subsystem (`ViewManager.cpp`)

Shallow embedding of the view/camera core of the repository: the globals in
`ViewManager.cpp`, the mouse-position callback, the scroll callback, the
keyboard polling (`ProcessKeyboardEvents`) and the per-frame update
(`PrepareSceneView`), together with the GLM math functions they invoke
(`normalize`, `cross`, `lookAt`, `perspective`, `ortho`).

Machine `float` values are modelled as real numbers; GLFW key states are
booleans sampled at each poll; the shader boundary is modelled as the list of
named uniform uploads a frame performs.
-/

open Real

/-- 3-component vector, `glm::vec3` with real components `(x, y, z)`. -/
abbrev Vec3 : Type := ℝ × ℝ × ℝ

namespace Vec3

/-- `glm::dot` for 3-vectors. -/
def dot (a b : Vec3) : ℝ := a.1 * b.1 + a.2.1 * b.2.1 + a.2.2 * b.2.2

/-- `glm::cross` for 3-vectors. -/
def cross (a b : Vec3) : Vec3 :=
  (a.2.1 * b.2.2 - a.2.2 * b.2.1,
   a.2.2 * b.1 - a.1 * b.2.2,
   a.1 * b.2.1 - a.2.1 * b.1)

/-- Euclidean length of a 3-vector, `glm::length`. -/
noncomputable def len (a : Vec3) : ℝ := Real.sqrt (a.1 ^ 2 + a.2.1 ^ 2 + a.2.2 ^ 2)

/-- `glm::normalize`: the vector divided by its length. -/
noncomputable def normalize (a : Vec3) : Vec3 := (len a)⁻¹ • a

end Vec3

/-- `glm::radians`: degrees to radians. -/
noncomputable def glmRadians (deg : ℝ) : ℝ := deg * Real.pi / 180

/-- `glm::degrees`: radians to degrees. -/
noncomputable def glmDegrees (rad : ℝ) : ℝ := rad * 180 / Real.pi

/-- `std::atan2 y x`: the angle of the plane vector `(x, y)`, in `(-π, π]`,
modelled by the argument of the complex number `x + y i`. -/
noncomputable def atan2 (y x : ℝ) : ℝ := Complex.arg ⟨x, y⟩

/-- 4×4 matrix, `glm::mat4` (entry `(row, col)` in the usual mathematical
convention; GLM stores the same matrix column-major). -/
abbrev Mat4 : Type := Matrix (Fin 4) (Fin 4) ℝ

/-- `glm::lookAt` (right-handed): view matrix looking from `eye` toward
`center` with up-hint `up`. -/
noncomputable def glmLookAt (eye center up : Vec3) : Mat4 :=
  let f := Vec3.normalize (center - eye)
  let s := Vec3.normalize (Vec3.cross f up)
  let u := Vec3.cross s f
  Matrix.of
    ![![s.1, s.2.1, s.2.2, -(Vec3.dot s eye)],
      ![u.1, u.2.1, u.2.2, -(Vec3.dot u eye)],
      ![-f.1, -f.2.1, -f.2.2, Vec3.dot f eye],
      ![0, 0, 0, 1]]

/-- `glm::perspective` (right-handed, clip z in [-1,1]). -/
noncomputable def glmPerspective (fovy aspect zNear zFar : ℝ) : Mat4 :=
  let tanHalfFovy := Real.tan (fovy / 2)
  Matrix.of
    ![![1 / (aspect * tanHalfFovy), 0, 0, 0],
      ![0, 1 / tanHalfFovy, 0, 0],
      ![0, 0, -(zFar + zNear) / (zFar - zNear), -(2 * zFar * zNear) / (zFar - zNear)],
      ![0, 0, -1, 0]]

/-- `glm::ortho` (right-handed, clip z in [-1,1]). -/
noncomputable def glmOrtho (left right bottom top zNear zFar : ℝ) : Mat4 :=
  Matrix.of
    ![![2 / (right - left), 0, 0, -(right + left) / (right - left)],
      ![0, 2 / (top - bottom), 0, -(top + bottom) / (top - bottom)],
      ![0, 0, -2 / (zFar - zNear), -(zFar + zNear) / (zFar - zNear)],
      ![0, 0, 0, 1]]

/-- The `Camera` object's fields used by `ViewManager.cpp`
(`Position`, `Front`, `Up`, `Zoom`). -/
@[ext] structure Camera where
  Position : Vec3
  Front : Vec3
  Up : Vec3
  Zoom : ℝ

/-- Modelled from the spec: `Camera::GetViewMatrix` (the `Camera` class is not
under `src/`; the spec's Camera contract says the view matrix is computed as
look-from-`position` along `front` with `up`). -/
noncomputable def Camera.GetViewMatrix (c : Camera) : Mat4 :=
  glmLookAt c.Position (c.Position + c.Front) c.Up

/-- The GLFW key states read by `ProcessKeyboardEvents`, one boolean per
polled key (`GLFW_PRESS` = `true`). -/
structure Keys where
  esc : Bool := false
  o : Bool := false
  p : Bool := false
  w : Bool := false
  s : Bool := false
  a : Bool := false
  d : Bool := false
  q : Bool := false
  e : Bool := false
deriving DecidableEq

/-- No key pressed. -/
def keysNone : Keys := {}

/-- Only the enter-orthographic key `O` pressed. -/
def keysO : Keys := { o := true }

/-- Only the enter-perspective key `P` pressed. -/
def keysP : Keys := { p := true }

/-- The mutable state of the view subsystem: the anonymous-namespace globals
of `ViewManager.cpp` together with the `Camera` they drive and the GLFW
window-should-close flag. -/
@[ext] structure VMState where
  cam : Camera
  /-- `gLastX` -/
  lastX : ℝ
  /-- `gLastY` -/
  lastY : ℝ
  /-- `gFirstMouse` -/
  firstMouse : Bool
  /-- `gDeltaTime` -/
  deltaTime : ℝ
  /-- `gLastFrame` -/
  lastFrame : ℝ
  /-- `bOrthographicProjection` -/
  ortho : Bool
  /-- `gSpeedScale` -/
  speedScale : ℝ
  /-- `gYaw` -/
  yaw : ℝ
  /-- `gPitch` -/
  pitch : ℝ
  /-- `gToggleKeyDown_O` -/
  toggleO : Bool
  /-- `gToggleKeyDown_P` -/
  toggleP : Bool
  /-- the flag set by `glfwSetWindowShouldClose` -/
  shouldClose : Bool

/-- `WINDOW_WIDTH` -/
def WINDOW_WIDTH : ℝ := 1000

/-- `WINDOW_HEIGHT` -/
def WINDOW_HEIGHT : ℝ := 800

/-- `gBaseMoveSpeed` (units per second). -/
def gBaseMoveSpeed : ℝ := 6

/-- `gMouseSensitivity` -/
def gMouseSensitivity : ℝ := 0.10

/-- `gOrthoTarget` -/
def gOrthoTarget : Vec3 := (-2, 0.95, -1)

/-- `gOrthoCamPos` -/
def gOrthoCamPos : Vec3 := (-2, 0.95, 8)

/-- The initial camera front vector set by the constructor,
`glm::vec3(0.0f, -0.5f, -2.0f)`. -/
def initialFront : Vec3 := (0, -0.5, -2)

/-- The spherical-coordinates front-vector formula of
`Mouse_Position_Callback` (lines 181–185):
`front = normalize((cos(yaw)·cos(pitch), sin(pitch), sin(yaw)·cos(pitch)))`
with `yaw`, `pitch` in degrees. -/
noncomputable def frontFromAngles (yawDeg pitchDeg : ℝ) : Vec3 :=
  Vec3.normalize
    (Real.cos (glmRadians yawDeg) * Real.cos (glmRadians pitchDeg),
     Real.sin (glmRadians pitchDeg),
     Real.sin (glmRadians yawDeg) * Real.cos (glmRadians pitchDeg))

/-- The state established by `ViewManager::ViewManager` together with the
static initializers of the anonymous-namespace globals: default camera pose,
`gLastX/Y` at the window center, `gFirstMouse = true`, timing zeroed,
perspective mode, and `gYaw`/`gPitch` derived from the normalized default
front via `atan2`/`asin` (note the extra `- 90` on the yaw). -/
noncomputable def initialState : VMState :=
  let front := Vec3.normalize initialFront
  { cam := { Position := (0, 5, 12), Front := initialFront, Up := (0, 1, 0), Zoom := 80 }
    lastX := WINDOW_WIDTH / 2
    lastY := WINDOW_HEIGHT / 2
    firstMouse := true
    deltaTime := 0
    lastFrame := 0
    ortho := false
    speedScale := 1
    yaw := glmDegrees (atan2 front.2.2 front.1) - 90
    pitch := glmDegrees (Real.arcsin front.2.1)
    toggleO := false
    toggleP := false
    shouldClose := false }

/-- `ViewManager::Mouse_Position_Callback`: seed the last cursor position on
the first sample, compute sensitivity-scaled offsets (vertical inverted), and
— only in perspective mode — integrate yaw/pitch, clamp pitch to `[-89, 89]`
and recompute the camera front from the angles. -/
noncomputable def mousePositionCallback (x y : ℝ) (st : VMState) : VMState :=
  let lastX := if st.firstMouse then x else st.lastX
  let lastY := if st.firstMouse then y else st.lastY
  let xoffset := (x - lastX) * gMouseSensitivity
  let yoffset := (lastY - y) * gMouseSensitivity
  let st1 := { st with lastX := x, lastY := y, firstMouse := false }
  if st.ortho then st1
  else
    let yaw1 := st.yaw + xoffset
    let pitchRaw := st.pitch + yoffset
    let pitch1 := if pitchRaw > 89 then 89 else pitchRaw
    let pitch2 := if pitch1 < -89 then -89 else pitch1
    { st1 with
        yaw := yaw1
        pitch := pitch2
        cam := { st1.cam with Front := frontFromAngles yaw1 pitch2 } }

/-- `ViewManager::Mouse_Scroll_Callback`: add `yOffset * 0.10` to the speed
scale and clamp the result to `[0.10, 5.00]`. -/
noncomputable def mouseScrollCallback (yOffset : ℝ) (st : VMState) : VMState :=
  let v0 := st.speedScale + yOffset * 0.10
  let v1 := if v0 < 0.10 then 0.10 else v0
  let v2 := if v1 > 5.00 then 5.00 else v1
  { st with speedScale := v2 }

/-- First block of `ProcessKeyboardEvents` (lines 210–213): request window
close if the escape key is pressed. -/
def escKeyStep (k : Keys) (st : VMState) : VMState :=
  if k.esc then { st with shouldClose := true } else st

/-- Second block of `ProcessKeyboardEvents` (lines 215–227): one-tap
(debounced) entry into orthographic mode on the `O` key. -/
def orthoToggleStep (k : Keys) (st : VMState) : VMState :=
  if k.o then
    (if st.toggleO then st else { st with ortho := true, toggleO := true })
  else { st with toggleO := false }

/-- Third block of `ProcessKeyboardEvents` (lines 229–241): one-tap
(debounced) entry into perspective mode on the `P` key. -/
def perspToggleStep (k : Keys) (st : VMState) : VMState :=
  if k.p then
    (if st.toggleP then st else { st with ortho := false, toggleP := true })
  else { st with toggleP := false }

/-- Fourth block of `ProcessKeyboardEvents` (lines 243–266): in perspective
mode only, the six movement keys each displace the camera position by
`gBaseMoveSpeed * gSpeedScale * gDeltaTime` along the relevant direction. -/
noncomputable def movementStep (k : Keys) (st : VMState) : VMState :=
  if st.ortho then st
  else
    let velocity := gBaseMoveSpeed * st.speedScale * st.deltaTime
    let p0 := st.cam.Position
    let p1 := if k.w then p0 + velocity • st.cam.Front else p0
    let p2 := if k.s then p1 - velocity • st.cam.Front else p1
    let right := Vec3.normalize (Vec3.cross st.cam.Front st.cam.Up)
    let p3 := if k.a then p2 - velocity • right else p2
    let p4 := if k.d then p3 + velocity • right else p3
    let p5 := if k.q then p4 + velocity • st.cam.Up else p4
    let p6 := if k.e then p5 - velocity • st.cam.Up else p5
    { st with cam := { st.cam with Position := p6 } }

/-- `ViewManager::ProcessKeyboardEvents`: close request on escape, the two
edge-triggered (debounced) mode-entry keys `O`/`P`, then — only in
perspective mode — the six movement keys, in the source's sequential
order. -/
noncomputable def processKeyboardEvents (k : Keys) (st : VMState) : VMState :=
  movementStep k (perspToggleStep k (orthoToggleStep k (escKeyStep k st)))

/-- A named uniform upload across the shader boundary
(`setMat4Value` / `setVec3Value`). -/
inductive Upload where
  | mat4 (uniformName : String) (value : Mat4)
  | vec3 (uniformName : String) (value : Vec3)

/-- `ViewManager::PrepareSceneView`: advance the frame clock, process
keyboard events, build the mode-dependent view/projection matrices, and —
only if the shader-manager pointer is non-null (`shaderValid`) — perform the
three named uniform uploads.  Returns the new state and the uploads of this
frame. -/
noncomputable def prepareSceneView (shaderValid : Bool) (now : ℝ) (k : Keys)
    (st : VMState) : VMState × List Upload :=
  let stT := { st with deltaTime := now - st.lastFrame, lastFrame := now }
  let st2 := processKeyboardEvents k stT
  let aspect := WINDOW_WIDTH / WINDOW_HEIGHT
  let orthoSize : ℝ := 0.85
  let view :=
    if st2.ortho then glmLookAt gOrthoCamPos gOrthoTarget (0, 1, 0)
    else st2.cam.GetViewMatrix
  let projection :=
    if st2.ortho then
      glmOrtho (-orthoSize * aspect) (orthoSize * aspect) (-orthoSize) orthoSize 0.1 100
    else glmPerspective (glmRadians st2.cam.Zoom) aspect 0.1 100
  let uploads :=
    if shaderValid then
      [Upload.mat4 "view" view,
       Upload.mat4 "projection" projection,
       Upload.vec3 "viewPosition" (if st2.ortho then gOrthoCamPos else st2.cam.Position)]
    else []
  (st2, uploads)

/-- An input event of the view subsystem: an asynchronous cursor-position
sample, an asynchronous scroll sample, or one per-frame update (which
includes the keyboard poll). -/
inductive VMEvent where
  | mouse (x y : ℝ)
  | scroll (y : ℝ)
  | frame (now : ℝ) (k : Keys)

/-- The state transition of one event. -/
noncomputable def VMEvent.step : VMEvent → VMState → VMState
  | .mouse x y, st => mousePositionCallback x y st
  | .scroll y, st => mouseScrollCallback y st
  | .frame now k, st => (prepareSceneView true now k st).1

/-- Run a list of events from a state. -/
noncomputable def runEvents (evs : List VMEvent) (st : VMState) : VMState :=
  evs.foldl (fun s e => e.step s) st

/-- The camera pose observable by the user: position, orientation basis and
the orientation angles. -/
def pose (st : VMState) : Vec3 × Vec3 × Vec3 × ℝ × ℝ :=
  (st.cam.Position, st.cam.Front, st.cam.Up, st.yaw, st.pitch)

/-- Every intermediate state of an event sequence is still in orthographic
mode. -/
def allOrtho : List VMEvent → VMState → Prop
  | [], _ => True
  | e :: evs, st => (e.step st).ortho = true ∧ allOrtho evs (e.step st)

/-- `n` consecutive keyboard polls with the same key states. -/
noncomputable def kbIter (k : Keys) (n : ℕ) (st : VMState) : VMState :=
  (processKeyboardEvents k)^[n] st

/-- How many of the first `N` keyboard polls transition the mode into
Orthographic. -/
noncomputable def orthoEntryCount (k : Keys) (st : VMState) (N : ℕ) : ℕ :=
  (List.range N).countP fun i =>
    (kbIter k (i + 1) st).ortho && !(kbIter k i st).ortho

/-- How many of the first `N` keyboard polls transition the mode into
Perspective. -/
noncomputable def perspEntryCount (k : Keys) (st : VMState) (N : ℕ) : ℕ :=
  (List.range N).countP fun i =>
    !(kbIter k (i + 1) st).ortho && (kbIter k i st).ortho

/-- Net movement direction of one keyboard poll, per unit of
`baseSpeed * speedScale * deltaTime`: the signed sum of the held movement
keys' directions (front, strafe-right, world-up). -/
noncomputable def moveDir (k : Keys) (c : Camera) : Vec3 :=
  ((if k.w then (1 : ℝ) else 0) - (if k.s then (1 : ℝ) else 0)) • c.Front
    + ((if k.d then (1 : ℝ) else 0) - (if k.a then (1 : ℝ) else 0)) •
        Vec3.normalize (Vec3.cross c.Front c.Up)
    + ((if k.q then (1 : ℝ) else 0) - (if k.e then (1 : ℝ) else 0)) • c.Up

/-- `n` consecutive frames with fixed key states, each arriving `dt` after
the previous one (so each frame's computed `deltaTime` is `dt`). -/
noncomputable def runFrames (k : Keys) (dt : ℝ) : ℕ → VMState → VMState
  | 0, st => st
  | n + 1, st => runFrames k dt n ((prepareSceneView true (st.lastFrame + dt) k st).1)

/-- From the spec's words (§4.3): in Perspective mode,
`projection = perspective(fovYRadians = radians(Camera.zoom),
aspect = width/height, near=0.1, far=100.0)`. -/
noncomputable def specPerspectiveProjection (zoomDeg : ℝ) : Mat4 :=
  glmPerspective (glmRadians zoomDeg) (WINDOW_WIDTH / WINDOW_HEIGHT) 0.1 100

/-- From the spec's words (§4.3): in Orthographic mode,
`projection = ortho(-size*aspect, size*aspect, -size, size, near=0.1,
far=100.0)` with fixed half-extent `size = 0.85`. -/
noncomputable def specOrthoProjection : Mat4 :=
  glmOrtho (-(0.85 * (WINDOW_WIDTH / WINDOW_HEIGHT)))
    (0.85 * (WINDOW_WIDTH / WINDOW_HEIGHT)) (-0.85) 0.85 0.1 100

/-- From the spec's words (§4.3): in Orthographic mode,
`view = lookAt(fixedEye, fixedTarget, worldUp)`. -/
noncomputable def specOrthoView : Mat4 :=
  glmLookAt gOrthoCamPos gOrthoTarget (0, 1, 0)

/-- A state in orthographic mode, used as a concrete sample input: the
initial state right after entering orthographic mode. -/
noncomputable def orthoStart : VMState := { initialState with ortho := true }

/-! ## Helper lemmas: field preservation by the keyboard poll -/

lemma escKeyStep_deltaTime (k : Keys) (st : VMState) :
    (escKeyStep k st).deltaTime = st.deltaTime := by
  simp only [escKeyStep]; split_ifs <;> rfl

lemma escKeyStep_pitch (k : Keys) (st : VMState) :
    (escKeyStep k st).pitch = st.pitch := by
  simp only [escKeyStep]; split_ifs <;> rfl

lemma escKeyStep_speedScale (k : Keys) (st : VMState) :
    (escKeyStep k st).speedScale = st.speedScale := by
  simp only [escKeyStep]; split_ifs <;> rfl

lemma orthoToggleStep_deltaTime (k : Keys) (st : VMState) :
    (orthoToggleStep k st).deltaTime = st.deltaTime := by
  simp only [orthoToggleStep]; split_ifs <;> rfl

lemma orthoToggleStep_pitch (k : Keys) (st : VMState) :
    (orthoToggleStep k st).pitch = st.pitch := by
  simp only [orthoToggleStep]; split_ifs <;> rfl

lemma orthoToggleStep_speedScale (k : Keys) (st : VMState) :
    (orthoToggleStep k st).speedScale = st.speedScale := by
  simp only [orthoToggleStep]; split_ifs <;> rfl

lemma perspToggleStep_deltaTime (k : Keys) (st : VMState) :
    (perspToggleStep k st).deltaTime = st.deltaTime := by
  simp only [perspToggleStep]; split_ifs <;> rfl

lemma perspToggleStep_pitch (k : Keys) (st : VMState) :
    (perspToggleStep k st).pitch = st.pitch := by
  simp only [perspToggleStep]; split_ifs <;> rfl

lemma perspToggleStep_speedScale (k : Keys) (st : VMState) :
    (perspToggleStep k st).speedScale = st.speedScale := by
  simp only [perspToggleStep]; split_ifs <;> rfl

lemma movementStep_deltaTime (k : Keys) (st : VMState) :
    (movementStep k st).deltaTime = st.deltaTime := by
  simp only [movementStep]; split_ifs <;> rfl

lemma movementStep_pitch (k : Keys) (st : VMState) :
    (movementStep k st).pitch = st.pitch := by
  simp only [movementStep]; split_ifs <;> rfl

lemma movementStep_speedScale (k : Keys) (st : VMState) :
    (movementStep k st).speedScale = st.speedScale := by
  simp only [movementStep]; split_ifs <;> rfl

lemma processKeyboardEvents_deltaTime (k : Keys) (st : VMState) :
    (processKeyboardEvents k st).deltaTime = st.deltaTime := by
  simp only [processKeyboardEvents, movementStep_deltaTime, perspToggleStep_deltaTime,
    orthoToggleStep_deltaTime, escKeyStep_deltaTime]

lemma processKeyboardEvents_pitch (k : Keys) (st : VMState) :
    (processKeyboardEvents k st).pitch = st.pitch := by
  simp only [processKeyboardEvents, movementStep_pitch, perspToggleStep_pitch,
    orthoToggleStep_pitch, escKeyStep_pitch]

lemma processKeyboardEvents_speedScale (k : Keys) (st : VMState) :
    (processKeyboardEvents k st).speedScale = st.speedScale := by
  simp only [processKeyboardEvents, movementStep_speedScale, perspToggleStep_speedScale,
    orthoToggleStep_speedScale, escKeyStep_speedScale]

lemma mousePositionCallback_speedScale (x y : ℝ) (st : VMState) :
    (mousePositionCallback x y st).speedScale = st.speedScale := by
  simp only [mousePositionCallback]
  split_ifs <;> rfl

lemma mouseScrollCallback_pitch (y : ℝ) (st : VMState) :
    (mouseScrollCallback y st).pitch = st.pitch := rfl

/-- After any scroll sample the speed scale is inside `[0.10, 5.00]`,
whatever the previous value and offset were. -/
lemma mouseScrollCallback_speedScale_mem (y : ℝ) (st : VMState) :
    0.10 ≤ (mouseScrollCallback y st).speedScale ∧
      (mouseScrollCallback y st).speedScale ≤ 5.00 := by
  simp only [mouseScrollCallback]
  split_ifs <;> constructor <;> norm_num <;> linarith

/-- After any cursor sample taken in perspective mode the pitch is inside
`[-89, 89]`, whatever the previous pitch and the sample were. -/
lemma mousePositionCallback_pitch_mem (x y : ℝ) (st : VMState)
    (h : -89 ≤ st.pitch ∧ st.pitch ≤ 89) :
    -89 ≤ (mousePositionCallback x y st).pitch ∧
      (mousePositionCallback x y st).pitch ≤ 89 := by
  simp only [mousePositionCallback]
  split_ifs <;> simp_all

/-- Generic invariant preservation along an event run. -/
lemma runEvents_inv (P : VMState → Prop)
    (hstep : ∀ (e : VMEvent) (st : VMState), P st → P (e.step st)) :
    ∀ (evs : List VMEvent) (st : VMState), P st → P (runEvents evs st) := by
  intro evs
  induction evs with
  | nil => intro st h; exact h
  | cons e evs ih => intro st h; exact ih _ (hstep e st h)

lemma prepareSceneView_fst (sv : Bool) (now : ℝ) (k : Keys) (st : VMState) :
    (prepareSceneView sv now k st).1
      = processKeyboardEvents k
          { st with deltaTime := now - st.lastFrame, lastFrame := now } := rfl

/-! ## C10: null shader manager -/

/-- C10: if the orchestrator was constructed with a null shader-manager
pointer, the per-frame update performs zero uniform uploads while still
advancing the frame clock and processing keyboard state exactly as it would
with a valid shader manager. -/
theorem nullShaderManager_noUploads (now : ℝ) (k : Keys) (st : VMState) :
    (prepareSceneView false now k st).2 = []
    ∧ (prepareSceneView false now k st).1
        = processKeyboardEvents k
            { st with deltaTime := now - st.lastFrame, lastFrame := now }
    ∧ (prepareSceneView false now k st).1 = (prepareSceneView true now k st).1 :=
  ⟨rfl, rfl, rfl⟩

/-! ## C2: first frame tick -/

/-- C2 (amended): since `gLastFrame` is seeded to `0` at initialization, the
first frame tick yields `deltaTime` equal to the monotonic-clock value at
that call — it is `0` exactly when the clock reads `0`, not for every
possible clock value. -/
theorem firstTick_deltaTime_eq_clock (sv : Bool) (now : ℝ) (k : Keys) :
    ((prepareSceneView sv now k initialState).1).deltaTime = now := by
  rw [prepareSceneView_fst, processKeyboardEvents_deltaTime]
  show now - initialState.lastFrame = now
  simp [initialState]

/-- C2 counterexample: at the first tick with the clock reading `1`, the
computed `deltaTime` is not `0`. -/
theorem firstTick_deltaTime_counterexample :
    ((prepareSceneView true 1 keysNone initialState).1).deltaTime ≠ 0 := by
  rw [prepareSceneView_fst, processKeyboardEvents_deltaTime]
  show (1 : ℝ) - initialState.lastFrame ≠ 0
  simp [initialState]

/-! ## C8: speed-scale invariant and scroll update -/

/-- C8: after every event sequence the speed scale lies in `[0.10, 5.00]`,
and a single scroll of `yOffset = -60` from the initial `speedScale = 1`
clamps to exactly `0.10`. -/
theorem speedScale_invariant_and_scroll_clamp :
    (∀ evs : List VMEvent,
      0.10 ≤ (runEvents evs initialState).speedScale
        ∧ (runEvents evs initialState).speedScale ≤ 5.00)
    ∧ (mouseScrollCallback (-60) initialState).speedScale = 0.10 := by
  constructor
  · intro evs
    refine runEvents_inv
      (fun st => 0.10 ≤ st.speedScale ∧ st.speedScale ≤ 5.00) ?_ evs initialState ?_
    · intro e st h
      cases e with
      | mouse x y =>
        simpa only [VMEvent.step, mousePositionCallback_speedScale] using h
      | scroll y => exact mouseScrollCallback_speedScale_mem y st
      | frame now k =>
        simpa only [VMEvent.step, prepareSceneView_fst,
          processKeyboardEvents_speedScale] using h
    · constructor <;> simp [initialState] <;> norm_num
  · simp only [mouseScrollCallback, initialState]
    norm_num

/-! ## C3: pitch invariant -/

lemma len_initialFront_sq : Vec3.len initialFront ^ 2 = 17 / 4 := by
  simp only [Vec3.len, initialFront]
  rw [Real.sq_sqrt] <;> norm_num

lemma one_le_len_initialFront : 1 ≤ Vec3.len initialFront := by
  have h2 := len_initialFront_sq
  have h0 : 0 ≤ Vec3.len initialFront := Real.sqrt_nonneg _
  nlinarith

lemma normalize_initialFront_y :
    (Vec3.normalize initialFront).2.1 = (Vec3.len initialFront)⁻¹ * (-0.5) := rfl

lemma arcsin_one_half_eq : Real.arcsin (1 / 2 : ℝ) = Real.pi / 6 := by
  rw [show (1 / 2 : ℝ) = Real.sin (Real.pi / 6) from Real.sin_pi_div_six.symm]
  exact Real.arcsin_sin (by linarith [Real.pi_pos]) (by linarith [Real.pi_pos])

/-- The constructor's derived pitch (`asin` of the normalized default
front's y component, in degrees) lies well inside the clamp range. -/
lemma initialState_pitch_mem : -30 ≤ initialState.pitch ∧ initialState.pitch ≤ 30 := by
  have hn2 := len_initialFront_sq
  have hn1 := one_le_len_initialFront
  have hnpos : (0 : ℝ) < Vec3.len initialFront := by linarith
  have hninv0 : (0 : ℝ) < (Vec3.len initialFront)⁻¹ := inv_pos.mpr hnpos
  have hmul : Vec3.len initialFront * (Vec3.len initialFront)⁻¹ = 1 :=
    mul_inv_cancel₀ (ne_of_gt hnpos)
  have hninv1 : (Vec3.len initialFront)⁻¹ ≤ 1 := by nlinarith
  have hyle : (Vec3.len initialFront)⁻¹ * (-0.5) ≤ 1 / 2 := by nlinarith
  have hyge : -(1 / 2) ≤ (Vec3.len initialFront)⁻¹ * (-0.5) := by nlinarith
  have hble : Real.arcsin ((Vec3.len initialFront)⁻¹ * (-0.5)) ≤ Real.pi / 6 := by
    calc Real.arcsin ((Vec3.len initialFront)⁻¹ * (-0.5))
        ≤ Real.arcsin (1 / 2) := Real.monotone_arcsin hyle
      _ = Real.pi / 6 := arcsin_one_half_eq
  have hbge : -(Real.pi / 6) ≤ Real.arcsin ((Vec3.len initialFront)⁻¹ * (-0.5)) := by
    have hneg : Real.arcsin (-(1 / 2) : ℝ) = -(Real.pi / 6) := by
      rw [Real.arcsin_neg, arcsin_one_half_eq]
    calc -(Real.pi / 6) = Real.arcsin (-(1 / 2) : ℝ) := hneg.symm
      _ ≤ Real.arcsin ((Vec3.len initialFront)⁻¹ * (-0.5)) := Real.monotone_arcsin hyge
  have hpitch : initialState.pitch
      = Real.arcsin ((Vec3.len initialFront)⁻¹ * (-0.5)) * 180 / Real.pi := by
    simp only [initialState, glmDegrees, normalize_initialFront_y]
  have hpi : (0 : ℝ) < Real.pi := Real.pi_pos
  rw [hpitch]
  constructor
  · have h1 : -(Real.pi / 6) * 180 / Real.pi
        ≤ Real.arcsin ((Vec3.len initialFront)⁻¹ * (-0.5)) * 180 / Real.pi := by
      gcongr
    have h2 : -(Real.pi / 6) * 180 / Real.pi = -30 := by
      rw [div_eq_iff (ne_of_gt hpi)]; ring
    linarith
  · have h1 : Real.arcsin ((Vec3.len initialFront)⁻¹ * (-0.5)) * 180 / Real.pi
        ≤ Real.pi / 6 * 180 / Real.pi := by
      gcongr
    have h2 : Real.pi / 6 * 180 / Real.pi = 30 := by
      rw [div_eq_iff (ne_of_gt hpi)]; ring
    linarith

lemma step_pitch_mem (e : VMEvent) (st : VMState)
    (h : -89 ≤ st.pitch ∧ st.pitch ≤ 89) :
    -89 ≤ (e.step st).pitch ∧ (e.step st).pitch ≤ 89 := by
  cases e with
  | mouse x y => exact mousePositionCallback_pitch_mem x y st h
  | scroll y => simpa only [VMEvent.step, mouseScrollCallback_pitch] using h
  | frame now k =>
    simpa only [VMEvent.step, prepareSceneView_fst, processKeyboardEvents_pitch] using h

/-- C3: after every sequence of input events — cursor samples in any mode
with any coordinates, scrolls, and frames — the stored pitch stays within
`[-89, 89]` degrees. -/
theorem pitch_always_clamped (evs : List VMEvent) :
    -89 ≤ (runEvents evs initialState).pitch
      ∧ (runEvents evs initialState).pitch ≤ 89 := by
  refine runEvents_inv (fun st => -89 ≤ st.pitch ∧ st.pitch ≤ 89)
    step_pitch_mem evs initialState ?_
  have h := initialState_pitch_mem
  constructor <;> linarith [h.1, h.2]

/-! ## C1 and C9: the constructor's yaw derivation -/

lemma normalize_initialFront_z :
    (Vec3.normalize initialFront).2.2 = (Vec3.len initialFront)⁻¹ * (-2) := rfl

lemma atan2_initialFront :
    atan2 ((Vec3.len initialFront)⁻¹ * (-2)) ((Vec3.len initialFront)⁻¹ * 0)
      = -(Real.pi / 2) := by
  have hz : (Vec3.len initialFront)⁻¹ * 0 = 0 := mul_zero _
  have hpos : (0 : ℝ) < (Vec3.len initialFront)⁻¹ :=
    inv_pos.mpr (lt_of_lt_of_le one_pos one_le_len_initialFront)
  have hneg : (Vec3.len initialFront)⁻¹ * (-2) < 0 := by nlinarith
  unfold atan2
  rw [hz]
  exact Complex.arg_eq_neg_pi_div_two_iff.mpr ⟨rfl, hneg⟩

lemma glmDegrees_neg_pi_div_two : glmDegrees (-(Real.pi / 2)) = -90 := by
  unfold glmDegrees
  rw [div_eq_iff (ne_of_gt Real.pi_pos)]
  ring

/-- The yaw derived by the constructor: `degrees(atan2(z, x)) - 90` applied
to the normalized default front evaluates to `-180` degrees (the correct
inversion of the spherical formula would give `-90`). -/
lemma initialState_yaw_eq : initialState.yaw = -180 := by
  have h : initialState.yaw
      = glmDegrees (atan2 ((Vec3.len initialFront)⁻¹ * (-2))
          ((Vec3.len initialFront)⁻¹ * 0)) - 90 := rfl
  rw [h, atan2_initialFront, glmDegrees_neg_pi_div_two]
  norm_num

lemma glmRadians_neg180 : glmRadians (-180) = -Real.pi := by
  unfold glmRadians
  rw [div_eq_iff (by norm_num : (180 : ℝ) ≠ 0)]
  ring

/-- At yaw `-180°` the recomputed front's z component vanishes. -/
lemma frontFromAngles_neg180_z (p : ℝ) : (frontFromAngles (-180) p).2.2 = 0 := by
  have hs : Real.sin (glmRadians (-180)) = 0 := by
    rw [glmRadians_neg180, Real.sin_neg, Real.sin_pi, neg_zero]
  simp only [frontFromAngles, Vec3.normalize, Prod.smul_snd, smul_eq_mul, hs,
    zero_mul, mul_zero]

/-- The normalized default front points almost straight along `-z`. -/
lemma normalize_initialFront_z_lt :
    (Vec3.normalize initialFront).2.2 < -(9 / 10) := by
  have hn2 := len_initialFront_sq
  have hn1 := one_le_len_initialFront
  have hnpos : (0 : ℝ) < Vec3.len initialFront := by linarith
  rw [normalize_initialFront_z, inv_mul_eq_div, div_lt_iff₀ hnpos]
  nlinarith

/-- C1: the yaw/pitch derived at construction do not round-trip.  Feeding
them back through the mouse callback's spherical front formula yields a
vector whose z component is `0`, while the normalized initial front's z
component is below `-0.9`: the reconstruction misses the original front by
far more than any floating-point tolerance (it is rotated 90° in yaw). -/
theorem initial_orientation_roundtrip_fails :
    (frontFromAngles initialState.yaw initialState.pitch).2.2 = 0
    ∧ (Vec3.normalize initialFront).2.2 < -(9 / 10)
    ∧ (9 / 10 : ℝ)
        < (frontFromAngles initialState.yaw initialState.pitch).2.2
            - (Vec3.normalize initialFront).2.2 := by
  have h1 : (frontFromAngles initialState.yaw initialState.pitch).2.2 = 0 := by
    rw [initialState_yaw_eq]
    exact frontFromAngles_neg180_z _
  have h2 := normalize_initialFront_z_lt
  exact ⟨h1, h2, by rw [h1]; linarith⟩

/-- The source's two-sided sequential pitch clamp is the identity on values
already inside `[-89, 89]`. -/
lemma pitch_clamp_id (p : ℝ) (h1 : -89 ≤ p) (h2 : p ≤ 89) :
    (if (if p > 89 then (89 : ℝ) else p) < -89 then (-89 : ℝ)
     else if p > 89 then (89 : ℝ) else p) = p := by
  rw [if_neg (not_lt.mpr h2), if_neg (not_lt.mpr h1)]

/-- C9: the very first cursor sample does seed the last-cursor position and
leaves yaw and pitch unchanged, but it does not leave the camera front
unchanged: the front is recomputed from the (mis-derived) angles, moving its
z component from below `-0.9` (after normalization) to exactly `0`. -/
theorem first_sample_seeds_but_moves_front :
    (mousePositionCallback 500 400 initialState).lastX = 500
    ∧ (mousePositionCallback 500 400 initialState).lastY = 400
    ∧ (mousePositionCallback 500 400 initialState).yaw = initialState.yaw
    ∧ (mousePositionCallback 500 400 initialState).pitch = initialState.pitch
    ∧ (mousePositionCallback 500 400 initialState).cam.Front.2.2 = 0
    ∧ (Vec3.normalize initialState.cam.Front).2.2 < -(9 / 10)
    ∧ (mousePositionCallback 500 400 initialState).cam.Front ≠ initialState.cam.Front := by
  have ho : initialState.ortho = false := rfl
  have hf : initialState.firstMouse = true := rfl
  have hpm := initialState_pitch_mem
  have hzero : (mousePositionCallback 500 400 initialState).cam.Front.2.2 = 0 := by
    simp only [mousePositionCallback, ho, hf, Bool.false_eq_true, if_false, if_true,
      sub_self, zero_mul, add_zero]
    rw [initialState_yaw_eq]
    exact frontFromAngles_neg180_z _
  refine ⟨?_, ?_, ?_, ?_, hzero, ?_, ?_⟩
  · simp [mousePositionCallback, ho, hf]
  · simp [mousePositionCallback, ho, hf]
  · simp [mousePositionCallback, ho, hf]
  · simp only [mousePositionCallback, ho, hf, Bool.false_eq_true, if_false, if_true,
      sub_self, zero_mul, add_zero]
    exact pitch_clamp_id _ (by linarith [hpm.1]) (by linarith [hpm.2])
  · exact normalize_initialFront_z_lt
  · intro heq
    have hz := congrArg (fun v : Vec3 => v.2.2) heq
    simp only [hzero] at hz
    have h2 : initialState.cam.Front.2.2 = -2 := rfl
    rw [h2] at hz
    norm_num at hz

/-! ## C4: orthographic mode preserves the camera pose -/

lemma escKeyStep_pose (k : Keys) (st : VMState) : pose (escKeyStep k st) = pose st := by
  simp only [escKeyStep]; split_ifs <;> rfl

lemma orthoToggleStep_pose (k : Keys) (st : VMState) :
    pose (orthoToggleStep k st) = pose st := by
  simp only [orthoToggleStep]; split_ifs <;> rfl

lemma perspToggleStep_pose (k : Keys) (st : VMState) :
    pose (perspToggleStep k st) = pose st := by
  simp only [perspToggleStep]; split_ifs <;> rfl

lemma movementStep_ortho (k : Keys) (st : VMState) :
    (movementStep k st).ortho = st.ortho := by
  simp only [movementStep]; split_ifs <;> rfl

lemma movementStep_of_ortho (k : Keys) (st : VMState) (h : st.ortho = true) :
    movementStep k st = st := by
  simp [movementStep, h]

/-- If a keyboard poll ends in orthographic mode, it did not change the
camera pose: the movement block is the only pose mutation and it is guarded
by the (post-toggle) mode. -/
lemma processKeyboardEvents_ortho_pose (k : Keys) (st : VMState)
    (h2 : (processKeyboardEvents k st).ortho = true) :
    pose (processKeyboardEvents k st) = pose st := by
  have h2' : (movementStep k (perspToggleStep k (orthoToggleStep k (escKeyStep k st)))).ortho
      = true := h2
  rw [movementStep_ortho] at h2'
  calc pose (processKeyboardEvents k st)
      = pose (movementStep k (perspToggleStep k (orthoToggleStep k (escKeyStep k st)))) := rfl
    _ = pose (perspToggleStep k (orthoToggleStep k (escKeyStep k st))) := by
        rw [movementStep_of_ortho _ _ h2']
    _ = pose st := by rw [perspToggleStep_pose, orthoToggleStep_pose, escKeyStep_pose]

lemma step_ortho_pose (e : VMEvent) (st : VMState) (h : st.ortho = true)
    (h2 : (e.step st).ortho = true) : pose (e.step st) = pose st := by
  cases e with
  | mouse x y => simp [VMEvent.step, mousePositionCallback, pose, h]
  | scroll y => rfl
  | frame now k =>
    have h2' : (processKeyboardEvents k
        { st with deltaTime := now - st.lastFrame, lastFrame := now }).ortho = true := h2
    have := processKeyboardEvents_ortho_pose k
      { st with deltaTime := now - st.lastFrame, lastFrame := now } h2'
    exact this

/-- C4: during any event sequence that keeps the system in orthographic mode,
camera position, front, up, yaw and pitch are all unchanged — movement keys
and mouse look are fully suppressed, so switching back to perspective finds
the camera in its last perspective-mode pose. -/
theorem ortho_mode_preserves_pose (evs : List VMEvent) (st : VMState)
    (h : st.ortho = true) (hall : allOrtho evs st) :
    pose (runEvents evs st) = pose st := by
  induction evs generalizing st with
  | nil => rfl
  | cons e evs ih =>
    obtain ⟨h1, h2⟩ := hall
    calc pose (runEvents (e :: evs) st) = pose (runEvents evs (e.step st)) := rfl
      _ = pose (e.step st) := ih (e.step st) h1 h2
      _ = pose st := step_ortho_pose e st h h1

/-- Witness for C4: a concrete orthographic state and event sequence (a
scroll, a mouse sample, a frame with no keys held). -/
theorem ortho_mode_preserves_pose_witness :
    pose (runEvents [VMEvent.scroll 2, VMEvent.mouse 3 4, VMEvent.frame 1 keysNone]
        orthoStart)
      = pose orthoStart :=
  ortho_mode_preserves_pose _ _ rfl ⟨rfl, rfl, rfl, trivial⟩

/-! ## C5: edge-triggered mode toggles -/

/-- First poll with `O` held and the debounce flag clear: the mode becomes
orthographic and both debounce effects apply. -/
lemma pkO_first (st : VMState) (hO : st.toggleO = false) :
    processKeyboardEvents keysO st
      = { st with ortho := true, toggleO := true, toggleP := false } := by
  unfold processKeyboardEvents escKeyStep orthoToggleStep perspToggleStep movementStep
  simp [keysO, hO]

/-- Further polls with `O` still held are a fixed point. -/
lemma pkO_fixed (st : VMState) (h1 : st.toggleO = true) (h2 : st.ortho = true)
    (h3 : st.toggleP = false) : processKeyboardEvents keysO st = st := by
  obtain ⟨cam, lX, lY, fm, dT, lF, orth, sS, yw, pt, tO, tP, sC⟩ := st
  dsimp only at h1 h2 h3
  subst h1; subst h2; subst h3
  rfl

/-- First poll with `P` held and the debounce flag clear. -/
lemma pkP_first (st : VMState) (hP : st.toggleP = false) :
    processKeyboardEvents keysP st
      = { st with ortho := false, toggleO := false, toggleP := true } := by
  unfold processKeyboardEvents escKeyStep orthoToggleStep perspToggleStep movementStep
  simp [keysP, hP]

/-- Further polls with `P` still held are a fixed point. -/
lemma pkP_fixed (st : VMState) (h1 : st.toggleP = true) (h2 : st.ortho = false)
    (h3 : st.toggleO = false) : processKeyboardEvents keysP st = st := by
  obtain ⟨cam, lX, lY, fm, dT, lF, orth, sS, yw, pt, tO, tP, sC⟩ := st
  dsimp only at h1 h2 h3
  subst h1; subst h2; subst h3
  rfl

lemma kbIter_keysO_stable (st : VMState) (hO : st.toggleO = false) :
    ∀ i, 1 ≤ i → kbIter keysO i st = kbIter keysO 1 st := by
  have h1 : kbIter keysO 1 st
      = { st with ortho := true, toggleO := true, toggleP := false } := by
    rw [kbIter, Function.iterate_one]
    exact pkO_first st hO
  intro i hi
  induction i with
  | zero => omega
  | succ n ih =>
    rcases Nat.lt_or_ge 0 n with hn | hn
    · have hrec := ih (by omega)
      rw [kbIter, Function.iterate_succ_apply']
      rw [show (processKeyboardEvents keysO)^[n] st = kbIter keysO n st from rfl, hrec, h1]
      rw [pkO_fixed _ rfl rfl rfl]
    · have hz : n = 0 := by omega
      subst hz
      rfl

lemma kbIter_keysP_stable (st : VMState) (hP : st.toggleP = false) :
    ∀ i, 1 ≤ i → kbIter keysP i st = kbIter keysP 1 st := by
  have h1 : kbIter keysP 1 st
      = { st with ortho := false, toggleO := false, toggleP := true } := by
    rw [kbIter, Function.iterate_one]
    exact pkP_first st hP
  intro i hi
  induction i with
  | zero => omega
  | succ n ih =>
    rcases Nat.lt_or_ge 0 n with hn | hn
    · have hrec := ih (by omega)
      rw [kbIter, Function.iterate_succ_apply']
      rw [show (processKeyboardEvents keysP)^[n] st = kbIter keysP n st from rfl, hrec, h1]
      rw [pkP_fixed _ rfl rfl rfl]
    · have hz : n = 0 := by omega
      subst hz
      rfl

/-- A poll that observes the `O` key released clears its debounce flag. -/
lemma pk_keysNone_toggleO (st : VMState) :
    (processKeyboardEvents keysNone st).toggleO = false := by
  unfold processKeyboardEvents escKeyStep orthoToggleStep perspToggleStep movementStep
  simp [keysNone]

/-- Pressing `O` while already orthographic leaves the mode orthographic. -/
lemma pk_keysO_ortho_of_ortho (t : VMState) (h : t.ortho = true) :
    (processKeyboardEvents keysO t).ortho = true := by
  cases htO : t.toggleO with
  | false => rw [pkO_first t htO]
  | true =>
    show (movementStep keysO (perspToggleStep keysO (orthoToggleStep keysO
        (escKeyStep keysO t)))).ortho = true
    rw [movementStep_ortho]
    simp [perspToggleStep, orthoToggleStep, escKeyStep, keysO, htO, h]

/-- Pressing `P` while already perspective leaves the mode perspective. -/
lemma pk_keysP_ortho_of_persp (t : VMState) (h : t.ortho = false) :
    (processKeyboardEvents keysP t).ortho = false := by
  cases htP : t.toggleP with
  | false => rw [pkP_first t htP]
  | true =>
    show (movementStep keysP (perspToggleStep keysP (orthoToggleStep keysP
        (escKeyStep keysP t)))).ortho = false
    rw [movementStep_ortho]
    simp [perspToggleStep, orthoToggleStep, escKeyStep, keysP, htP, h]

/-- `countP` over `range N` of a predicate holding exactly at `0`. -/
lemma countP_range_one_of (N : ℕ) (hN : 1 ≤ N) (p : ℕ → Bool)
    (h0 : p 0 = true) (hs : ∀ i, 1 ≤ i → p i = false) :
    (List.range N).countP p = 1 := by
  induction N with
  | zero => omega
  | succ n ih =>
    rcases Nat.lt_or_ge 0 n with hn | hn
    · rw [List.range_succ, List.countP_append, ih (by omega)]
      simp [List.countP_cons, hs n (by omega)]
    · have hz : n = 0 := by omega
      subst hz
      simp [List.range_succ, List.countP_cons, h0]

/-- C5: mode toggles are edge-triggered and always legal.  Holding `O` over
`N ≥ 1` polls from a perspective state with a clear debounce flag causes
exactly one transition into Orthographic (the state is already stable after
the first poll); a poll observing the key released re-arms the flag; holding
`P` symmetrically causes exactly one transition into Perspective; and
pressing a mode key while already in that mode leaves the mode unchanged. -/
theorem mode_toggle_edge_triggered (st : VMState) (N : ℕ) (hN : 1 ≤ N)
    (hO : st.toggleO = false) (hM : st.ortho = false) :
    orthoEntryCount keysO st N = 1
    ∧ (∀ i, 1 ≤ i → i ≤ N →
        (kbIter keysO i st).ortho = true ∧ kbIter keysO i st = kbIter keysO 1 st)
    ∧ (processKeyboardEvents keysNone (kbIter keysO N st)).toggleO = false
    ∧ (∀ t : VMState, t.ortho = true → (processKeyboardEvents keysO t).ortho = true)
    ∧ (∀ t : VMState, t.ortho = true → t.toggleP = false →
        perspEntryCount keysP t N = 1)
    ∧ (∀ t : VMState, t.ortho = false → (processKeyboardEvents keysP t).ortho = false) := by
  refine ⟨?_, ?_, ?_, ?_, ?_, ?_⟩
  · unfold orthoEntryCount
    refine countP_range_one_of N hN _ ?_ ?_
    · simp [kbIter, Function.iterate_one, Function.iterate_zero_apply,
        pkO_first st hO, hM]
    · intro i hi
      have h1 := kbIter_keysO_stable st hO i hi
      have h2 := kbIter_keysO_stable st hO (i + 1) (by omega)
      rw [h1, h2]
      simp
  · intro i hi _
    have h := kbIter_keysO_stable st hO i hi
    refine ⟨?_, h⟩
    rw [h, kbIter, Function.iterate_one, pkO_first st hO]
  · exact pk_keysNone_toggleO _
  · exact fun t ht => pk_keysO_ortho_of_ortho t ht
  · intro t ht htP
    unfold perspEntryCount
    refine countP_range_one_of N hN _ ?_ ?_
    · simp [kbIter, Function.iterate_one, Function.iterate_zero_apply,
        pkP_first t htP, ht]
    · intro i hi
      have h1 := kbIter_keysP_stable t htP i hi
      have h2 := kbIter_keysP_stable t htP (i + 1) (by omega)
      rw [h1, h2]
      simp
  · exact fun t ht => pk_keysP_ortho_of_persp t ht

/-- Witness for C5: the initial state (perspective mode, debounce flags
clear) with three consecutive polls holding `O`. -/
theorem mode_toggle_edge_triggered_witness :
    initialState.toggleO = false ∧ initialState.ortho = false
      ∧ orthoEntryCount keysO initialState 3 = 1 :=
  ⟨rfl, rfl, (mode_toggle_edge_triggered initialState 3 (by norm_num) rfl rfl).1⟩

/-! ## C6: per-mode matrices and uniform uploads -/

/-- C6: with a valid shader manager, each frame performs exactly the three
named uploads `view`, `projection`, `viewPosition`; in the frame's active
(post-keyboard) mode they carry, for Perspective, the camera's view matrix,
`perspective(radians(zoom), width/height, 0.1, 100)` and the camera
position, and for Orthographic the fixed `lookAt(fixedEye, fixedTarget,
worldUp)`, `ortho(-0.85·aspect, 0.85·aspect, -0.85, 0.85, 0.1, 100)` and the
fixed eye — the spec-side right-hand sides (`specOrthoView`,
`specOrthoProjection`, `specPerspectiveProjection`) are written from the
spec's formulas. -/
theorem frame_uniform_uploads (now : ℝ) (k : Keys) (st : VMState) :
    ((prepareSceneView true now k st).2
      = if ((prepareSceneView true now k st).1).ortho then
          [Upload.mat4 "view" specOrthoView,
           Upload.mat4 "projection" specOrthoProjection,
           Upload.vec3 "viewPosition" gOrthoCamPos]
        else
          [Upload.mat4 "view" ((prepareSceneView true now k st).1).cam.GetViewMatrix,
           Upload.mat4 "projection"
             (specPerspectiveProjection ((prepareSceneView true now k st).1).cam.Zoom),
           Upload.vec3 "viewPosition" ((prepareSceneView true now k st).1).cam.Position])
    ∧ ((prepareSceneView true now k st).2).length = 3 := by
  constructor
  · simp only [prepareSceneView, specOrthoView, specOrthoProjection,
      specPerspectiveProjection, if_true]
    split_ifs with h
    · norm_num
    · rfl
  · simp only [prepareSceneView, if_true]
    split_ifs <;> rfl

/-! ## C7: frame-rate independence of movement -/

lemma escKeyStep_eq (k : Keys) (st : VMState) :
    escKeyStep k st = { st with shouldClose := if k.esc then true else st.shouldClose } := by
  simp only [escKeyStep]
  split_ifs <;> rfl

lemma orthoToggleStep_no_o (k : Keys) (st : VMState) (hko : k.o = false) :
    orthoToggleStep k st = { st with toggleO := false } := by
  simp [orthoToggleStep, hko]

lemma perspToggleStep_no_p (k : Keys) (st : VMState) (hkp : k.p = false) :
    perspToggleStep k st = { st with toggleP := false } := by
  simp [perspToggleStep, hkp]

/-- In perspective mode, one movement block displaces the position by
`velocity • moveDir`: the sequential signed updates of the six keys collapse
to the signed direction sum. -/
lemma movementStep_persp (k : Keys) (st : VMState) (h : st.ortho = false) :
    movementStep k st
      = { st with cam := { st.cam with Position :=
            st.cam.Position
              + (gBaseMoveSpeed * st.speedScale * st.deltaTime) • moveDir k st.cam } } := by
  simp only [movementStep, h, Bool.false_eq_true, if_false]
  simp only [VMState.mk.injEq, Camera.mk.injEq, and_true, true_and]
  unfold moveDir
  cases k.w <;> cases k.s <;> cases k.a <;> cases k.d <;> cases k.q <;> cases k.e <;>
    simp <;> module

/-- One frame arriving `d` after the previous one, in perspective mode with
no mode keys held: the clock advances by `d` and the position integrates
`baseSpeed * speedScale * d` along the held-key direction. -/
lemma prepare_persp_frame (k : Keys) (d : ℝ) (st : VMState)
    (hko : k.o = false) (hkp : k.p = false) (ho : st.ortho = false) :
    (prepareSceneView true (st.lastFrame + d) k st).1
      = { st with
          deltaTime := d
          lastFrame := st.lastFrame + d
          shouldClose := if k.esc then true else st.shouldClose
          toggleO := false
          toggleP := false
          cam := { st.cam with Position :=
            st.cam.Position + (gBaseMoveSpeed * st.speedScale * d) • moveDir k st.cam } } := by
  rw [prepareSceneView_fst]
  rw [show st.lastFrame + d - st.lastFrame = d from by ring]
  show movementStep k (perspToggleStep k (orthoToggleStep k (escKeyStep k
    { st with deltaTime := d, lastFrame := st.lastFrame + d }))) = _
  rw [escKeyStep_eq, orthoToggleStep_no_o _ _ hko, perspToggleStep_no_p _ _ hkp]
  exact movementStep_persp k _ ho

/-- `moveDir` only depends on the orientation basis. -/
lemma moveDir_congr (k : Keys) (c c' : Camera) (hf : c.Front = c'.Front)
    (hu : c.Up = c'.Up) : moveDir k c = moveDir k c' := by
  unfold moveDir
  rw [hf, hu]

/-- State evolution across `N` equally spaced frames in perspective mode:
orientation, speed scale and mode are preserved and the position integrates
linearly in the number of frames. -/
lemma runFrames_persp (k : Keys) (dt : ℝ) (hko : k.o = false) (hkp : k.p = false) :
    ∀ (N : ℕ) (st : VMState), st.ortho = false →
      (runFrames k dt N st).cam.Position
          = st.cam.Position
              + (N : ℝ) • ((gBaseMoveSpeed * st.speedScale * dt) • moveDir k st.cam)
        ∧ (runFrames k dt N st).cam.Front = st.cam.Front
        ∧ (runFrames k dt N st).cam.Up = st.cam.Up
        ∧ (runFrames k dt N st).speedScale = st.speedScale
        ∧ (runFrames k dt N st).ortho = false := by
  intro N
  induction N with
  | zero => exact fun st h => ⟨by simp [runFrames], rfl, rfl, rfl, h⟩
  | succ n ih =>
    intro st h
    have hframe := prepare_persp_frame k dt st hko hkp h
    have hPos : ((prepareSceneView true (st.lastFrame + dt) k st).1).cam.Position
        = st.cam.Position + (gBaseMoveSpeed * st.speedScale * dt) • moveDir k st.cam := by
      rw [hframe]
    have hFront : ((prepareSceneView true (st.lastFrame + dt) k st).1).cam.Front
        = st.cam.Front := by rw [hframe]
    have hUp : ((prepareSceneView true (st.lastFrame + dt) k st).1).cam.Up
        = st.cam.Up := by rw [hframe]
    have hSS : ((prepareSceneView true (st.lastFrame + dt) k st).1).speedScale
        = st.speedScale := by rw [hframe]
    have hOr : ((prepareSceneView true (st.lastFrame + dt) k st).1).ortho = false := by
      rw [hframe]
      exact h
    obtain ⟨hp, hf, hu, hs, hor⟩ := ih _ hOr
    have hmd : moveDir k ((prepareSceneView true (st.lastFrame + dt) k st).1).cam
        = moveDir k st.cam := moveDir_congr k _ _ hFront hUp
    rw [runFrames]
    refine ⟨?_, ?_, ?_, ?_, hor⟩
    · rw [hp, hPos, hSS, hmd]
      push_cast
      module
    · rw [hf, hFront]
    · rw [hu, hUp]
    · rw [hs, hSS]

/-- C7: with a fixed held movement-key set (no mode keys), a fixed
orientation and speed scale, `N` frames of `deltaTime = dt` each move the
camera to exactly the same position as one frame of `deltaTime = N·dt`. -/
theorem movement_frame_rate_independent (k : Keys) (dt : ℝ) (N : ℕ) (st : VMState)
    (hko : k.o = false) (hkp : k.p = false) (ho : st.ortho = false) :
    (runFrames k dt N st).cam.Position
      = ((prepareSceneView true (st.lastFrame + (N : ℝ) * dt) k st).1).cam.Position := by
  have hl := (runFrames_persp k dt hko hkp N st ho).1
  have hr := prepare_persp_frame k ((N : ℝ) * dt) st hko hkp ho
  rw [hl, hr]
  show st.cam.Position + (N : ℝ) • ((gBaseMoveSpeed * st.speedScale * dt) • moveDir k st.cam)
    = st.cam.Position
      + (gBaseMoveSpeed * st.speedScale * ((N : ℝ) * dt)) • moveDir k st.cam
  rw [smul_smul, show (N : ℝ) * (gBaseMoveSpeed * st.speedScale * dt)
    = gBaseMoveSpeed * st.speedScale * ((N : ℝ) * dt) from by ring]

/-- Witness for C7: two frames of `dt = 1` with only `W` held, from the
initial state. -/
theorem movement_frame_rate_independent_witness :
    Keys.o { w := true } = false ∧ Keys.p { w := true } = false
      ∧ initialState.ortho = false
      ∧ (runFrames { w := true } 1 2 initialState).cam.Position
          = ((prepareSceneView true (initialState.lastFrame + ((2 : ℕ) : ℝ) * 1)
              { w := true } initialState).1).cam.Position :=
  ⟨rfl, rfl, rfl, movement_frame_rate_independent { w := true } 1 2 initialState rfl rfl rfl⟩
